import Mathlib

/-!
Verification of the SimpleHFDownloader core: the URL planner
(`parse_huggingface_model_url`) and the sequential download orchestrator
(`download_in_thread`) from `src/main.py`, shallowly embedded over
`List Char` strings and an explicit effect trace.
-/

namespace HFD

/-- Strings are modelled as lists of characters. -/
abbrev Str := List Char

/-! ## String primitives (models of the Python string/os.path operations) -/

/-- Python `s.split(sep)` for a single-character separator:
`"".split(c) = [""]`, `"a//b".split("/") = ["a","","b"]`. -/
def splitOnChar (sep : Char) : Str → List Str
  | [] => [[]]
  | c :: cs =>
    match splitOnChar sep cs with
    | [] => [[c]]
    | r :: rs => if c = sep then [] :: r :: rs else (c :: r) :: rs

/-- Python `s.strip('/')`: remove leading and trailing `'/'` characters. -/
def stripSlashes (s : Str) : Str :=
  ((s.dropWhile (fun c => c = '/')).reverse.dropWhile (fun c => c = '/')).reverse

/-- Index of the last occurrence of `c` in `s` (Python `s.rfind(c)`,
with `none` for `-1`). -/
def rfind (c : Char) : Str → Option Nat
  | [] => none
  | x :: xs =>
    match rfind c xs with
    | some i => some (i + 1)
    | none => if x = c then some 0 else none

/-- Python `os.path.basename` (POSIX form): the text after the last `'/'`.
The application feeds it URL path components, which use `'/'` separators. -/
def basename (p : Str) : Str :=
  (p.reverse.takeWhile (fun c => c ≠ '/')).reverse

/-- Start index of the filename part within `p` (one past the last `'/'`,
or 0): CPython `_splitext`'s `sepIndex + 1`. -/
def extSearchStart (p : Str) : Nat :=
  match rfind '/' p with
  | none => 0
  | some s => s + 1

/-- The index at which `os.path.splitext` splits off an extension, when it
does: the last dot, provided some earlier non-dot character follows the
last separator (CPython `_splitext`'s leading-dots rule). -/
def extSplitAt (p : Str) : Option Nat :=
  match rfind '.' p with
  | none => none
  | some d =>
    if extSearchStart p ≤ d ∧
        (List.range d).any (fun j => extSearchStart p ≤ j ∧ p[j]? ≠ some '.') then
      some d
    else none

/-- Python `os.path.splitext` (POSIX form): split at the last dot, unless
every character before that dot (after the last `'/'`) is itself a dot. -/
def splitext (p : Str) : Str × Str :=
  match extSplitAt p with
  | none => (p, [])
  | some d => (p.take d, p.drop d)

/-- ASCII decimal digit test, modelling Python's `\d` on the ASCII range
(Python's `\d` additionally accepts non-ASCII Unicode decimal digits,
which this development does not model). -/
def isDigitChar (c : Char) : Bool := 48 ≤ c.toNat && c.toNat ≤ 57

/-- Numeric value of an ASCII digit string (Python `int(s)` on digit input). -/
def digitsToNat (s : Str) : Nat :=
  s.foldl (fun a c => 10 * a + (c.toNat - 48)) 0

/-- Decimal digit characters of `n`, most significant first; the first
argument is recursion fuel (any fuel `≥ n` yields all digits). -/
def natDigits : Nat → Nat → List Char
  | 0, _ => []
  | _ + 1, 0 => []
  | fuel + 1, n + 1 =>
    natDigits fuel ((n + 1) / 10) ++ [Nat.digitChar ((n + 1) % 10)]

/-- Python `str(n)` for a non-negative integer: decimal digits, no leading
zeros, with `"0"` for zero. -/
def natToStr (n : Nat) : Str :=
  if n = 0 then ['0'] else natDigits n n

/-- Python `str(n).zfill(5)` (equivalently `f"{n:05d}"` for `n ≥ 0`):
left-pad the decimal representation with zeros to width 5. -/
def padZ5 (n : Nat) : Str :=
  List.replicate (5 - (natToStr n).length) '0' ++ natToStr n

/-- ASCII whitespace test modelling Python `str.strip()`'s default set
(space, tab, newline, carriage return, vertical tab, form feed; Python
additionally strips non-ASCII Unicode whitespace, not modelled). -/
def isPySpace (c : Char) : Bool :=
  c = ' ' || c = '\t' || c = '\n' || c = '\r' || c = '\x0b' || c = '\x0c'

/-- Python `s.strip()`. -/
def stripWS (s : Str) : Str :=
  ((s.dropWhile isPySpace).reverse.dropWhile isPySpace).reverse

/-- Python `os.path.join(a, b)` (POSIX form) for two components. -/
def pathJoin (a b : Str) : Str :=
  if b.head? = some '/' then b
  else if a = [] ∨ a.getLast? = some '/' then a ++ b
  else a ++ '/' :: b

/-! ## Model of `urllib.parse.urlparse` (the fields the source reads)

The source reads only `scheme`, `netloc` and `path` of the parse result.
We model CPython's `urlsplit`/`urlparse` for those fields: the leading
WHATWG control/space strip, removal of the unsafe bytes tab/CR/LF,
scheme recognition, netloc extraction after `"//"`, the unbalanced-IPv6-
bracket `ValueError` (modelled as `none`), fragment/query removal, and
`urlparse`'s params split on the last path segment. `_checknetloc` (which
raises only for certain non-ASCII netlocs under NFKC normalization) is
modelled as always passing. -/

/-- Result of the URL parse: the three fields the source reads. -/
structure UrlParts where
  scheme : Str
  netloc : Str
  path : Str
deriving DecidableEq, Repr

/-- ASCII letter test (Python `c.isascii() and c.isalpha()`). -/
def isAsciiAlpha (c : Char) : Bool :=
  (97 ≤ c.toNat && c.toNat ≤ 122) || (65 ≤ c.toNat && c.toNat ≤ 90)

/-- Characters allowed after the first character of a URL scheme
(CPython's `scheme_chars`). -/
def isSchemeChar (c : Char) : Bool :=
  isAsciiAlpha c || isDigitChar c || c = '+' || c = '-' || c = '.'

/-- Split a scheme off the front of the URL, as CPython `urlsplit` does:
the text before the first `':'` qualifies when it is nonempty, starts
with an ASCII letter and continues with scheme characters; it is
lowercased. Otherwise no scheme is recognised. -/
def splitScheme (s : Str) : Str × Str :=
  match s.findIdx? (fun c => c = ':') with
  | some i =>
    if 0 < i ∧ (match s.head? with | some c => isAsciiAlpha c | none => false) = true
        ∧ ((s.take i).drop 1).all isSchemeChar = true then
      ((s.take i).map Char.toLower, s.drop (i + 1))
    else ([], s)
  | none => ([], s)

/-- `urlparse`'s params split: drop `";…"` from the last path segment
(CPython `_splitparams`, guarded by `';' in url`). -/
def splitParamsPath (p : Str) : Str :=
  if ';' ∈ p then
    if '/' ∈ p then
      match rfind '/' p with
      | some s =>
        match (p.drop s).findIdx? (fun c => c = ';') with
        | some j => p.take (s + j)
        | none => p
      | none => p
    else p.takeWhile (fun c => c ≠ ';')
  else p

/-- Model of `urllib.parse.urlparse` restricted to scheme/netloc/path;
`none` models the `ValueError` raised for an unbalanced IPv6 bracket. -/
def urlparseModel (url0 : Str) : Option UrlParts :=
  let url1 := (url0.dropWhile (fun c => c.toNat ≤ 32)).filter
    (fun c => ¬ (c = '\t' ∨ c = '\r' ∨ c = '\n'))
  let (scheme, rest) := splitScheme url1
  let (netloc, rest2) :=
    if rest.take 2 = ['/', '/'] then
      let after := rest.drop 2
      let n := after.takeWhile (fun c => ¬ (c = '/' ∨ c = '?' ∨ c = '#'))
      (n, after.drop n.length)
    else ([], rest)
  if ('[' ∈ netloc) ≠ (']' ∈ netloc) then none
  else
    let beforeFrag := rest2.takeWhile (fun c => c ≠ '#')
    let beforeQuery := beforeFrag.takeWhile (fun c => c ≠ '?')
    some ⟨scheme, netloc, splitParamsPath beforeQuery⟩

/-! ## The URL planner (`parse_huggingface_model_url`) -/

/-- One download task, mirroring the dictionaries built by
`parse_huggingface_model_url`. -/
structure ModelInfo where
  DownloadUrl : Str
  Author : Str
  ModelRepo : Str
  ModelName : Str
  Extension : Str
deriving DecidableEq, Repr

/-- The planner's two failure modes. In the source both print a distinct
diagnostic and return `None`: `InvalidUrl` is the path printing
`"Invalid URL."` (missing scheme or host, or `urlparse` raising), and
`MalformedPath` the path printing `"URL structure is invalid."`
(fewer than two path segments). -/
inductive ParseError where
  | InvalidUrl
  | MalformedPath
deriving DecidableEq, Repr

/-- The path segments: `parsed_uri.path.strip('/').split('/')`. -/
def pathSegments (u : UrlParts) : List Str :=
  splitOnChar '/' (stripSlashes u.path)

/-- `filename_without_extension` from the source: the stem of the path's
basename. -/
def fileStem (u : UrlParts) : Str :=
  (splitext (basename u.path)).1

/-- `extension` from the source: the extension (with leading dot, possibly
empty) of the path's basename. -/
def fileExt (u : UrlParts) : Str :=
  (splitext (basename u.path)).2

/-- `base_url`: the raw input URL truncated at its last `'/'`
(`url[:url.rfind('/')] if '/' in url else url`). -/
def base_url_of (url : Str) : Str :=
  match rfind '/' url with
  | none => url
  | some i => url.take i

/-- A 5-character ASCII digit block (`\d{5}` of the source regex). -/
def digitsBlock (s : Str) : Bool :=
  s.length == 5 && s.all isDigitChar

/-- Shape of the fixed 15-character tail of the multi-part pattern:
`-\d{5}-of-\d{5}`. -/
def tailShape (t : Str) : Bool :=
  t.length == 15 && t.take 1 == ['-'] && digitsBlock ((t.drop 1).take 5)
    && (t.drop 6).take 4 == ['-', 'o', 'f', '-'] && digitsBlock (t.drop 10)

/-- Core of the multi-part match on the effective string (after the `$`
trailing-newline adjustment): succeeds when at least one character
precedes a 15-character `-\d{5}-of-\d{5}` tail whose `base` part
contains no newline (`.` refuses newlines), returning the `base` group
and `int(total)`. -/
def multipartOf (s : Str) : Option (Str × Nat) :=
  if 16 ≤ s.length then
    if tailShape (s.drop (s.length - 15))
        && (s.take (s.length - 15)).all (fun c => c != '\n') then
      some (s.take (s.length - 15), digitsToNat ((s.drop (s.length - 15)).drop 10))
    else none
  else none

/-- Model of `re.match(r"^(?P<base>.+)-(?P<part>\d{5})-of-(?P<total>\d{5})$", stem)`,
returning the `base` group and `int(total)` (the only captures the source
uses). Because the part after `base` has fixed length 15, the greedy match
succeeds exactly when the last 15 characters have that shape and at least
one character precedes them. Python's `$` also matches just before one
trailing newline, hence the `dropLast` (unreachable for stems of parsed
URL paths, from which `urlparse` removes tab/CR/LF). -/
def matchMultipart (stem : Str) : Option (Str × Nat) :=
  multipartOf (if stem.getLast? = some '\n' then stem.dropLast else stem)

/-- Name of part `i` of `total`:
`f"{base_name}-{str(i).zfill(5)}-of-{total:05d}"`. -/
def partName (base : Str) (i total : Nat) : Str :=
  base ++ '-' :: (padZ5 i ++ '-' :: 'o' :: 'f' :: '-' :: padZ5 total)

/-- The task emitted for part index `i` (1-based) in the multi-part branch. -/
def multipartTask (url : Str) (author repo ext base : Str) (total i : Nat) : ModelInfo :=
  { DownloadUrl := base_url_of url ++ '/' :: (partName base i total ++ ext)
    Author := author
    ModelRepo := repo
    ModelName := partName base i total
    Extension := ext }

/-- Embedding of `parse_huggingface_model_url` (src/main.py lines 88–147).
`Except` encodes the `None`-plus-printed-diagnostic failure paths via
`ParseError`. -/
def parse_huggingface_model_url (url : Str) : Except ParseError (List ModelInfo) :=
  match urlparseModel url with
  | none => .error .InvalidUrl
  | some u =>
    if u.scheme = [] ∨ u.netloc = [] then .error .InvalidUrl
    else
      let segments := pathSegments u
      if segments.length < 2 then .error .MalformedPath
      else
        let author := segments.getD 0 []
        let model_repo := segments.getD 1 []
        let extension := fileExt u
        match matchMultipart (fileStem u) with
        | some (base_name, total_parts) =>
          .ok ((List.range total_parts).map
            (fun k => multipartTask url author model_repo extension base_name total_parts (k + 1)))
        | none =>
          .ok [{ DownloadUrl := url, Author := author, ModelRepo := model_repo,
                 ModelName := fileStem u, Extension := extension }]

/-! ## The download orchestrator (`download_in_thread`)

`download_in_thread` (src/main.py lines 150–239) is modelled as a function
from its inputs plus an oracle resolving the environment's nondeterminism
(the external process's behaviour and the points at which the GUI thread
sets the stop event) to the ordered trace of observable effects it
performs, together with the final value of the stop flag. -/

/-- The log messages the orchestrator puts on `log_queue`, one constructor
per `log_queue.put` site (payloads are the interpolated parts; the
surrounding literal text appears in comments):
* `notFound` — `"aria2c.exe not found in the configuration directory."`
* `noModels` — `"No model information to download."`
* `noDest` — `"Destination directory has not been set."`
* `cancelled n` — `"Download cancelled for: " + n + " (and subsequent downloads)"`
* `running n` — `f"Running aria2c for: {n}"`
* `outLine l` — a line of process stdout, forwarded as `output.strip()`
* `stopSignal` — `"Stop signal received. Terminating process gracefully..."`
* `killTimeout` — `"Process did not exit in time; killing it now..."`
* `finished n` — `f"Download finished for: {n}"`
* `ariaError n e` — `f"aria2c error during download {n}: {e}"`
* `finishedOrCancelled` — `"Download finished or cancelled."` -/
inductive LogMsg where
  | notFound
  | noModels
  | noDest
  | cancelled (name : Str)
  | running (name : Str)
  | outLine (line : Str)
  | stopSignal
  | killTimeout
  | finished (name : Str)
  | ariaError (name stderr : Str)
  | finishedOrCancelled
deriving DecidableEq, Repr

/-- Observable effects of one orchestrator run, in order:
* `log m` — `log_queue.put(...)`
* `makedirs p` — `os.makedirs(output_path, exist_ok=True)`
* `spawn args` — `subprocess.Popen(args, ...)`
* `setProc b` — `downloader_app_instance.set_process(...)`; `true` stores
  the live process handle, `false` stores `None`
* `terminate m` — `process.terminate()` for the process of task `m`
* `waitGrace m` — `process.wait(timeout=5)`
* `kill m` — `process.kill()` after the 5-second wait timed out
* `setDownloading b` — `downloader_app_instance.set_downloading_state(b)`
* `clearStop` — `downloader_app_instance.stop_event.clear()` -/
inductive Eff where
  | log (m : LogMsg)
  | makedirs (path : Str)
  | spawn (args : List Str)
  | setProc (active : Bool)
  | terminate (m : ModelInfo)
  | waitGrace (m : ModelInfo)
  | kill (m : ModelInfo)
  | setDownloading (b : Bool)
  | clearStop
deriving DecidableEq, Repr

/-- Oracle for one task's execution: everything the environment decides.
* `stopAtPre` — the GUI set the stop event before this task's pre-loop check;
* `polls` — one entry per iteration of the `while process.poll() is None`
  loop: the line `process.stdout.readline()` returns (`[]` for an empty
  read) and whether the stop event is set at that iteration's check
  (once the event is set externally it stays set until the worker clears
  it, so a `true` ends the loop); the list ends when `poll()` reports exit;
* `stopAtPost` — the GUI set the stop event after the loop exited on its
  own but before the line-222 re-check;
* `exitCode`, `stderrText` — the exited process's `returncode` and the
  text `process.stderr.read()` yields;
* `gracefulOk` — whether `process.wait(timeout=5)` returns without
  `TimeoutExpired` after `terminate()`. -/
structure TaskScript where
  stopAtPre : Bool
  polls : List (Str × Bool)
  stopAtPost : Bool
  exitCode : Int
  stderrText : Str
  gracefulOk : Bool
deriving DecidableEq, Repr

/-- The argument list built for aria2c:
`[aria2c_path, "-x", str(sessions), "-s", str(sessions), url,
"--file-allocation=trunc", "-d", output_path, "-o", name+extension]`. -/
def ariaArgs (ap : Str) (sessions : Nat) (di : Str) (m : ModelInfo) : List Str :=
  [ap, ['-', 'x'], natToStr sessions, ['-', 's'], natToStr sessions,
   m.DownloadUrl, "--file-allocation=trunc".toList, ['-', 'd'],
   pathJoin (pathJoin di m.Author) m.ModelRepo, ['-', 'o'],
   m.ModelName ++ m.Extension]

/-- The poll loop (lines 207–220): each iteration reads a line (forwarding
it stripped when nonempty), then checks the stop event; if set it logs,
terminates the process, waits up to 5 seconds, kills on timeout and breaks.
Returns the effects and whether the loop was broken by the stop event. -/
def runPolls (m : ModelInfo) (gracefulOk : Bool) : List (Str × Bool) → List Eff × Bool
  | [] => ([], false)
  | (line, stopSet) :: rest =>
    let lineEffs := if line = [] then [] else [Eff.log (.outLine (stripWS line))]
    if stopSet then
      (lineEffs ++ Eff.log .stopSignal :: Eff.terminate m ::
        (if gracefulOk then [Eff.waitGrace m]
         else [Eff.waitGrace m, Eff.log .killTimeout, Eff.kill m]), true)
    else
      (lineEffs ++ (runPolls m gracefulOk rest).1, (runPolls m gracefulOk rest).2)

/-- Result of one iteration of the per-model `for` loop: the effects
performed, the stop flag's value afterwards, and whether the `for` loop
was broken (`break`). -/
structure TaskStep where
  effs : List Eff
  stopOut : Bool
  broke : Bool
deriving DecidableEq, Repr

/-- The effects performed before the poll loop once the pre-loop stop check
passes (lines 180–205): create the output directory, announce the task,
spawn aria2c and record the process handle. -/
def taskPre (ap : Str) (se : Nat) (di : Str) (m : ModelInfo) : List Eff :=
  [Eff.makedirs (pathJoin (pathJoin di m.Author) m.ModelRepo),
   Eff.log (.running m.ModelName),
   Eff.spawn (ariaArgs ap se di m), Eff.setProc true]

/-- One iteration of the per-model `for` loop (lines 175–236). Arguments:
the aria2c path, session count, destination directory, the task and its
oracle, and the stop flag's value on entry. The `break` on line 224 (stop
observed after the loop) skips line 236, so `setProc false` occurs only
on the non-cancelled paths. -/
def execTask (ap : Str) (se : Nat) (di : Str) (m : ModelInfo) (s : TaskScript)
    (stopIn : Bool) : TaskStep :=
  if stopIn || s.stopAtPre then
    ⟨[Eff.log (.cancelled m.ModelName)], true, true⟩
  else if (runPolls m s.gracefulOk s.polls).2 || s.stopAtPost then
    ⟨taskPre ap se di m ++ (runPolls m s.gracefulOk s.polls).1 ++ [Eff.clearStop],
     false, true⟩
  else
    ⟨taskPre ap se di m ++ (runPolls m s.gracefulOk s.polls).1 ++
      (if s.exitCode = 0 then [Eff.log (.finished m.ModelName)]
       else [Eff.log (.ariaError m.ModelName (stripWS s.stderrText))]) ++
      [Eff.setProc false],
     false, false⟩

/-- The whole per-model loop over remaining (task, oracle) pairs. -/
def execTasks (ap : Str) (se : Nat) (di : Str) :
    List (ModelInfo × TaskScript) → Bool → List Eff × Bool
  | [], stopIn => ([], stopIn)
  | (m, s) :: rest, stopIn =>
    if (execTask ap se di m s stopIn).broke then
      ((execTask ap se di m s stopIn).effs, (execTask ap se di m s stopIn).stopOut)
    else
      ((execTask ap se di m s stopIn).effs ++
        (execTasks ap se di rest (execTask ap se di m s stopIn).stopOut).1,
       (execTasks ap se di rest (execTask ap se di m s stopIn).stopOut).2)

/-- Embedding of `download_in_thread` (src/main.py lines 150–239).
`ariaExists` models `os.path.exists(aria2c_path)`, `ap` the aria2c path,
`tasks` pairs `model_info_array` entries with their environment oracles,
`di` is `download_directory`, `se` is `sessions`, and `stop0` the stop
flag's value when the thread starts. Returns the effect trace and the
final value of the stop flag. -/
def download_in_thread (ariaExists : Bool) (ap : Str)
    (tasks : List (ModelInfo × TaskScript)) (di : Str) (se : Nat)
    (stop0 : Bool) : List Eff × Bool :=
  if ariaExists = false then
    ([Eff.log .notFound, Eff.setDownloading false], stop0)
  else if tasks = [] then
    ([Eff.log .noModels, Eff.setDownloading false], stop0)
  else if di = [] then
    ([Eff.log .noDest, Eff.setDownloading false], stop0)
  else
    ((execTasks ap se di tasks stop0).1 ++
      [Eff.log .finishedOrCancelled, Eff.setDownloading false],
     (execTasks ap se di tasks stop0).2)

/-- A task oracle on which the environment never raises the stop event. -/
def quietScript (s : TaskScript) : Prop :=
  s.stopAtPre = false ∧ (∀ p ∈ s.polls, p.2 = false) ∧ s.stopAtPost = false

/-- Effect classifier: process spawns. -/
def isSpawn : Eff → Bool
  | .spawn _ => true
  | _ => false

/-- Number of processes spawned in a trace. -/
def spawnCount (l : List Eff) : Nat := l.countP isSpawn

/-- Effect classifier: the termination-related effects (terminate, wait,
kill, stop-event clear), which only a cancelled task performs. -/
def isTermLike : Eff → Bool
  | .terminate _ => true
  | .waitGrace _ => true
  | .kill _ => true
  | .clearStop => true
  | _ => false

/-- Effect classifier: log-queue messages. -/
def isLog : Eff → Bool
  | .log _ => true
  | _ => false

/-! ## Lemmas about the decimal-string helpers -/

theorem digitsToNat_foldl_lt (s : Str) (a : Nat) (h : ∀ c ∈ s, isDigitChar c = true) :
    s.foldl (fun a c => 10 * a + (c.toNat - 48)) a < (a + 1) * 10 ^ s.length := by
  induction s generalizing a with
  | nil => simp
  | cons c cs ih =>
    have hc : isDigitChar c = true := h c (by simp)
    have hd : c.toNat - 48 ≤ 9 := by
      unfold isDigitChar at hc
      simp only [Bool.and_eq_true, decide_eq_true_eq] at hc
      omega
    have h2 := ih (10 * a + (c.toNat - 48)) (fun x hx => h x (by simp [hx]))
    have h3 : (10 * a + (c.toNat - 48) + 1) * 10 ^ cs.length
        ≤ ((a + 1) * 10) * 10 ^ cs.length :=
      Nat.mul_le_mul_right _ (by omega)
    simp only [List.foldl_cons, List.length_cons]
    refine lt_of_lt_of_le h2 (le_of_le_of_eq h3 ?_)
    ring

/-- A string of ASCII digits denotes a value below `10 ^ length`. -/
theorem digitsToNat_lt (s : Str) (h : s.all isDigitChar = true) :
    digitsToNat s < 10 ^ s.length := by
  simpa [digitsToNat] using
    digitsToNat_foldl_lt s 0 (fun c hc => List.all_eq_true.mp h c hc)

theorem digitChar_toNat_sub (d : Nat) (hd : d < 10) :
    (Nat.digitChar d).toNat - 48 = d := by
  interval_cases d <;> decide

theorem digitsToNat_append_digit (l : Str) (c : Char) :
    digitsToNat (l ++ [c]) = 10 * digitsToNat l + (c.toNat - 48) := by
  unfold digitsToNat
  rw [List.foldl_append]
  rfl

theorem digitsToNat_natDigits (fuel n : Nat) (h : n ≤ fuel) :
    digitsToNat (natDigits fuel n) = n := by
  induction fuel generalizing n with
  | zero =>
    cases Nat.le_zero.mp h
    rfl
  | succ fuel ih =>
    cases n with
    | zero => rfl
    | succ n =>
      rw [natDigits, digitsToNat_append_digit]
      have hlt : (n + 1) / 10 < n + 1 := Nat.div_lt_self (Nat.succ_pos n) (by norm_num)
      rw [ih _ (by omega)]
      rw [digitChar_toNat_sub _ (Nat.mod_lt _ (by norm_num))]
      omega

/-- Reading back the decimal representation returns the number. -/
theorem digitsToNat_natToStr (n : Nat) : digitsToNat (natToStr n) = n := by
  by_cases h : n = 0
  · subst h; decide
  · unfold natToStr
    rw [if_neg h]
    exact digitsToNat_natDigits n n le_rfl

theorem digitsToNat_replicate_zero (k : Nat) (s : Str) :
    digitsToNat (List.replicate k '0' ++ s) = digitsToNat s := by
  induction k with
  | zero => rfl
  | succ k ih =>
    have hrw : List.replicate (k + 1) '0' ++ s = '0' :: (List.replicate k '0' ++ s) := by
      simp [List.replicate_succ]
    rw [hrw]
    show List.foldl (fun a c => 10 * a + (c.toNat - 48)) 0 (List.replicate k '0' ++ s)
      = digitsToNat s
    exact ih

/-- Reading back a zero-padded decimal representation returns the number. -/
theorem digitsToNat_padZ5 (n : Nat) : digitsToNat (padZ5 n) = n := by
  unfold padZ5
  rw [digitsToNat_replicate_zero]
  exact digitsToNat_natToStr n

/-- Zero-padding to width 5 is injective. -/
theorem padZ5_inj {m n : Nat} (h : padZ5 m = padZ5 n) : m = n := by
  have h2 := congrArg digitsToNat h
  simpa [digitsToNat_padZ5] using h2

/-- Part names with the same base and total determine the part index. -/
theorem partName_inj {base : Str} {T i j : Nat}
    (h : partName base i T = partName base j T) : i = j := by
  unfold partName at h
  have h1 := List.append_cancel_left h
  injection h1 with _ h2
  exact padZ5_inj (List.append_cancel_right h2)

/-- A successful multi-part match yields a total below 100000 (it was
parsed from five digits). -/
theorem multipartOf_total_lt {s base : Str} {T : Nat}
    (h : multipartOf s = some (base, T)) : T < 100000 := by
  unfold multipartOf at h
  by_cases h16 : 16 ≤ s.length
  · rw [if_pos h16] at h
    by_cases hc : (tailShape (s.drop (s.length - 15))
        && (s.take (s.length - 15)).all (fun c => c != '\n')) = true
    · rw [if_pos hc] at h
      injection h with h
      injection h with _ hT
      have hts : tailShape (s.drop (s.length - 15)) = true :=
        (Bool.and_eq_true _ _ ▸ hc).1
      unfold tailShape at hts
      simp only [Bool.and_eq_true] at hts
      have hdb : digitsBlock ((s.drop (s.length - 15)).drop 10) = true := hts.2
      unfold digitsBlock at hdb
      simp only [Bool.and_eq_true, beq_iff_eq] at hdb
      have := digitsToNat_lt ((s.drop (s.length - 15)).drop 10) hdb.2
      rw [hdb.1] at this
      omega
    · rw [if_neg hc] at h; cases h
  · rw [if_neg h16] at h; cases h

theorem matchMultipart_total_lt {stem base : Str} {T : Nat}
    (h : matchMultipart stem = some (base, T)) : T < 100000 :=
  multipartOf_total_lt h

/-! ## Lemmas about `rfind` and `splitext` -/

theorem rfind_getElem {c : Char} {s : Str} {i : Nat} (h : rfind c s = some i) :
    s[i]? = some c := by
  induction s generalizing i with
  | nil => simp [rfind] at h
  | cons x xs ih =>
    unfold rfind at h
    cases hr : rfind c xs with
    | some j =>
      rw [hr] at h
      injection h with h
      subst h
      rw [List.getElem?_cons_succ]
      exact ih hr
    | none =>
      rw [hr] at h
      by_cases hx : x = c
      · rw [if_pos hx] at h
        injection h with h
        subst h
        simp [hx]
      · rw [if_neg hx] at h; cases h

theorem head?_drop_eq (l : Str) (n : Nat) : (l.drop n).head? = l[n]? := by
  induction l generalizing n with
  | nil => simp
  | cons x xs ih =>
    cases n with
    | zero => simp
    | succ n =>
      rw [List.drop_succ_cons, List.getElem?_cons_succ]
      exact ih n

/-- When `splitext` splits, it splits at a dot. -/
theorem extSplitAt_dot {p : Str} {d : Nat} (h : extSplitAt p = some d) :
    p[d]? = some '.' := by
  unfold extSplitAt at h
  cases hr : rfind '.' p with
  | none => rw [hr] at h; cases h
  | some d2 =>
    rw [hr] at h
    dsimp only at h
    split at h
    · injection h with h
      subst h
      exact rfind_getElem hr
    · cases h

/-- The extension computed by `splitext` is empty or starts with a dot. -/
theorem splitext_snd (p : Str) :
    (splitext p).2 = [] ∨ (splitext p).2.head? = some '.' := by
  unfold splitext
  cases he : extSplitAt p with
  | none => left; rfl
  | some d =>
    right
    show (p.drop d).head? = some '.'
    rw [head?_drop_eq]
    exact extSplitAt_dot he

/-! ## Unfolding lemmas for the planner -/

/-- On a URL that parses with scheme, host and at least two path segments,
the planner reaches the pattern match and returns the corresponding plan
(multi-part branch). -/
theorem parse_ok_multipart (url : Str) (u : UrlParts) (base : Str) (T : Nat)
    (hu : urlparseModel url = some u)
    (hs : u.scheme ≠ []) (hn : u.netloc ≠ [])
    (hseg : 2 ≤ (pathSegments u).length)
    (hm : matchMultipart (fileStem u) = some (base, T)) :
    parse_huggingface_model_url url =
      .ok ((List.range T).map (fun k =>
        multipartTask url ((pathSegments u).getD 0 []) ((pathSegments u).getD 1 [])
          (fileExt u) base T (k + 1))) := by
  unfold parse_huggingface_model_url
  rw [hu]
  dsimp only
  rw [if_neg (by push_neg; exact ⟨hs, hn⟩), if_neg (by omega), hm]

/-- On a URL that parses with scheme, host and at least two path segments
whose stem does not match the multi-part pattern, the planner returns the
single-file plan. -/
theorem parse_ok_single (url : Str) (u : UrlParts)
    (hu : urlparseModel url = some u)
    (hs : u.scheme ≠ []) (hn : u.netloc ≠ [])
    (hseg : 2 ≤ (pathSegments u).length)
    (hm : matchMultipart (fileStem u) = none) :
    parse_huggingface_model_url url =
      .ok [{ DownloadUrl := url, Author := (pathSegments u).getD 0 [],
             ModelRepo := (pathSegments u).getD 1 [], ModelName := fileStem u,
             Extension := fileExt u }] := by
  unfold parse_huggingface_model_url
  rw [hu]
  dsimp only
  rw [if_neg (by push_neg; exact ⟨hs, hn⟩), if_neg (by omega), hm]

/-! ## Claim theorems: the URL planner -/

/-- C1: for every URL whose final path segment's stem matches the
`<base>-<5-digit part>-of-<5-digit total>` pattern with total `T ≥ 1`,
`plan(url)` yields exactly `T` tasks, in ascending index order
`i = 1..T`; task `i` is `multipartTask … (i)`, i.e. it has name
`<base>-<i zero-padded to 5>-of-<T zero-padded to 5>` and download URL
equal to the input URL truncated at its last `'/'` followed by
`'/' + name + extension`; all tasks share the author (first path
segment), repo (second path segment) and extension, and the names are
pairwise distinct. -/
theorem c1_multipart_plan (url : Str) (u : UrlParts) (base : Str) (T : Nat)
    (hu : urlparseModel url = some u)
    (hs : u.scheme ≠ []) (hn : u.netloc ≠ [])
    (hseg : 2 ≤ (pathSegments u).length)
    (hm : matchMultipart (fileStem u) = some (base, T))
    (_hT : 1 ≤ T) :
    ∃ tasks, parse_huggingface_model_url url = .ok tasks ∧
      tasks.length = T ∧
      (∀ i, i < T → tasks[i]? = some (multipartTask url ((pathSegments u).getD 0 [])
        ((pathSegments u).getD 1 []) (fileExt u) base T (i + 1))) ∧
      (∀ t ∈ tasks, t.Author = (pathSegments u).getD 0 [] ∧
        t.ModelRepo = (pathSegments u).getD 1 [] ∧ t.Extension = fileExt u) ∧
      (tasks.map ModelInfo.ModelName).Nodup := by
  refine ⟨_, parse_ok_multipart url u base T hu hs hn hseg hm, ?_, ?_, ?_, ?_⟩
  · simp
  · intro i hi
    simp [List.getElem?_map, List.getElem?_range, hi]
  · intro t ht
    obtain ⟨k, hk, rfl⟩ := List.mem_map.mp ht
    exact ⟨rfl, rfl, rfl⟩
  · rw [List.map_map]
    have hfun : (ModelInfo.ModelName ∘ fun k =>
        multipartTask url ((pathSegments u).getD 0 []) ((pathSegments u).getD 1 [])
          (fileExt u) base T (k + 1))
        = fun k => partName base (k + 1) T := rfl
    rw [hfun]
    exact List.Nodup.map_on
      (fun x _ y _ hxy => by have := partName_inj hxy; omega)
      (List.nodup_range T)

/-- C1 witness: the theorem applied to
`https://host/alice/modelX/file-00002-of-00004.bin`, which expands to the
4 tasks `file-00001-of-00004.bin` … `file-00004-of-00004.bin`. -/
theorem c1_multipart_plan_witness :
    ∃ tasks, parse_huggingface_model_url
        "https://host/alice/modelX/file-00002-of-00004.bin".toList = .ok tasks ∧
      tasks.length = 4 ∧
      (∀ i, i < 4 → tasks[i]? = some (multipartTask
        "https://host/alice/modelX/file-00002-of-00004.bin".toList
        "alice".toList "modelX".toList ".bin".toList "file".toList 4 (i + 1))) ∧
      (∀ t ∈ tasks, t.Author = "alice".toList ∧ t.ModelRepo = "modelX".toList ∧
        t.Extension = ".bin".toList) ∧
      (tasks.map ModelInfo.ModelName).Nodup := by
  have h := c1_multipart_plan "https://host/alice/modelX/file-00002-of-00004.bin".toList
    ⟨"https".toList, "host".toList, "/alice/modelX/file-00002-of-00004.bin".toList⟩
    "file".toList 4 (by decide) (by decide) (by decide) (by decide) (by decide) (by decide)
  simpa using h

/-- C2: for every valid URL (scheme and host present, at least two path
segments) whose final path segment's stem does not match the multi-part
pattern, `plan(url)` yields exactly one task whose download URL is the
input URL unchanged, whose name is the final segment's stem, and whose
extension is empty or includes the leading dot. -/
theorem c2_single_file (url : Str) (u : UrlParts)
    (hu : urlparseModel url = some u)
    (hs : u.scheme ≠ []) (hn : u.netloc ≠ [])
    (hseg : 2 ≤ (pathSegments u).length)
    (hm : matchMultipart (fileStem u) = none) :
    parse_huggingface_model_url url =
      .ok [{ DownloadUrl := url, Author := (pathSegments u).getD 0 [],
             ModelRepo := (pathSegments u).getD 1 [], ModelName := fileStem u,
             Extension := fileExt u }] ∧
    (fileExt u = [] ∨ (fileExt u).head? = some '.') :=
  ⟨parse_ok_single url u hu hs hn hseg hm, splitext_snd (basename u.path)⟩

/-- C2 witness: the theorem applied to `https://host/alice/modelX/weights.bin`,
a single-file URL with extension `.bin`. -/
theorem c2_single_file_witness :
    parse_huggingface_model_url "https://host/alice/modelX/weights.bin".toList =
      .ok [{ DownloadUrl := "https://host/alice/modelX/weights.bin".toList,
             Author := "alice".toList, ModelRepo := "modelX".toList,
             ModelName := "weights".toList, Extension := ".bin".toList }] := by
  have h := c2_single_file "https://host/alice/modelX/weights.bin".toList
    ⟨"https".toList, "host".toList, "/alice/modelX/weights.bin".toList⟩
    (by decide) (by decide) (by decide) (by decide) (by decide)
  simpa using h.1

/-- C9: a URL whose stem matches the multi-part pattern with declared total
`00000` produces a successful empty plan: no parse error and no fallback
to the single-file case. -/
theorem c9_zero_total (url : Str) (u : UrlParts) (base : Str)
    (hu : urlparseModel url = some u)
    (hs : u.scheme ≠ []) (hn : u.netloc ≠ [])
    (hseg : 2 ≤ (pathSegments u).length)
    (hm : matchMultipart (fileStem u) = some (base, 0)) :
    parse_huggingface_model_url url = .ok [] := by
  have h := parse_ok_multipart url u base 0 hu hs hn hseg hm
  simpa using h

/-- C9 witness: `https://host/a/r/f-00001-of-00000.bin` yields `ok []`. -/
theorem c9_zero_total_witness :
    parse_huggingface_model_url "https://host/a/r/f-00001-of-00000.bin".toList = .ok [] :=
  c9_zero_total "https://host/a/r/f-00001-of-00000.bin".toList
    ⟨"https".toList, "host".toList, "/a/r/f-00001-of-00000.bin".toList⟩
    "f".toList (by decide) (by decide) (by decide) (by decide) (by decide)

/-- Trichotomy of the planner's outcomes, mirroring the source's three
control paths: invalid URL, malformed path, or a successful plan. -/
theorem parse_trichotomy (url : Str) :
    (parse_huggingface_model_url url = .error .InvalidUrl ∧
      ¬ ∃ u, urlparseModel url = some u ∧ u.scheme ≠ [] ∧ u.netloc ≠ []) ∨
    (parse_huggingface_model_url url = .error .MalformedPath ∧
      ∃ u, urlparseModel url = some u ∧ u.scheme ≠ [] ∧ u.netloc ≠ [] ∧
        (pathSegments u).length < 2) ∨
    ((∃ ts, parse_huggingface_model_url url = .ok ts) ∧
      ∃ u, urlparseModel url = some u ∧ u.scheme ≠ [] ∧ u.netloc ≠ [] ∧
        2 ≤ (pathSegments u).length) := by
  cases hu : urlparseModel url with
  | none =>
    left
    refine ⟨?_, ?_⟩
    · unfold parse_huggingface_model_url
      rw [hu]
    · rintro ⟨u', hu', -, -⟩
      cases hu'
  | some u =>
    by_cases hcond : u.scheme = [] ∨ u.netloc = []
    · left
      refine ⟨?_, ?_⟩
      · unfold parse_huggingface_model_url
        rw [hu]
        dsimp only
        rw [if_pos hcond]
      · rintro ⟨u', hu', hh1, hh2⟩
        injection hu' with hu'
        subst hu'
        rcases hcond with hc | hc
        · exact hh1 hc
        · exact hh2 hc
    · push_neg at hcond
      obtain ⟨h1, h2⟩ := hcond
      by_cases hlen : (pathSegments u).length < 2
      · right; left
        refine ⟨?_, u, rfl, h1, h2, hlen⟩
        unfold parse_huggingface_model_url
        rw [hu]
        dsimp only
        rw [if_neg (by push_neg; exact ⟨h1, h2⟩), if_pos hlen]
      · right; right
        refine ⟨?_, u, rfl, h1, h2, by omega⟩
        cases hm : matchMultipart (fileStem u) with
        | none => exact ⟨_, parse_ok_single url u hu h1 h2 (by omega) hm⟩
        | some bt =>
          obtain ⟨b, t⟩ := bt
          exact ⟨_, parse_ok_multipart url u b t hu h1 h2 (by omega) hm⟩

/-- C3: the planner fails with `InvalidUrl` exactly when the URL does not
parse to a result with a nonempty scheme and host, fails with
`MalformedPath` exactly when it does parse so but the path has fewer than
two segments; a failure never comes with tasks (no plan at all), and the
two failure kinds are distinct (in the source they are the two distinct
diagnostics accompanying the `None` return). -/
theorem c3_failure_modes (url : Str) :
    (parse_huggingface_model_url url = .error .InvalidUrl ↔
      ¬ ∃ u, urlparseModel url = some u ∧ u.scheme ≠ [] ∧ u.netloc ≠ []) ∧
    (parse_huggingface_model_url url = .error .MalformedPath ↔
      ∃ u, urlparseModel url = some u ∧ u.scheme ≠ [] ∧ u.netloc ≠ [] ∧
        (pathSegments u).length < 2) ∧
    (∀ e ts, parse_huggingface_model_url url = .error e →
      parse_huggingface_model_url url ≠ .ok ts) ∧
    ParseError.InvalidUrl ≠ ParseError.MalformedPath := by
  have hiff1 : parse_huggingface_model_url url = .error .InvalidUrl ↔
      ¬ ∃ u, urlparseModel url = some u ∧ u.scheme ≠ [] ∧ u.netloc ≠ [] := by
    obtain ⟨hp, hside⟩ | ⟨hp, hside⟩ | ⟨⟨ts, hp⟩, hside⟩ := parse_trichotomy url
    · rw [hp]
      exact iff_of_true rfl hside
    · rw [hp]
      obtain ⟨u, hu, h1, h2, hlen⟩ := hside
      exact iff_of_false (by simp) (fun hn => hn ⟨u, hu, h1, h2⟩)
    · rw [hp]
      obtain ⟨u, hu, h1, h2, hlen⟩ := hside
      exact iff_of_false (by simp) (fun hn => hn ⟨u, hu, h1, h2⟩)
  have hiff2 : parse_huggingface_model_url url = .error .MalformedPath ↔
      ∃ u, urlparseModel url = some u ∧ u.scheme ≠ [] ∧ u.netloc ≠ [] ∧
        (pathSegments u).length < 2 := by
    obtain ⟨hp, hside⟩ | ⟨hp, hside⟩ | ⟨⟨ts, hp⟩, hside⟩ := parse_trichotomy url
    · rw [hp]
      refine iff_of_false (by simp) ?_
      rintro ⟨u, hu, h1, h2, -⟩
      exact hside ⟨u, hu, h1, h2⟩
    · rw [hp]
      obtain ⟨u, hu, h1, h2, hlen⟩ := hside
      exact iff_of_true rfl ⟨u, hu, h1, h2, hlen⟩
    · rw [hp]
      obtain ⟨u, hu, h1, h2, hlen⟩ := hside
      refine iff_of_false (by simp) ?_
      rintro ⟨u', hu', -, -, hlen'⟩
      rw [hu] at hu'
      injection hu' with hu'
      subst hu'
      omega
  have h34 : ∀ e ts, parse_huggingface_model_url url = .error e →
      parse_huggingface_model_url url ≠ .ok ts := by
    intro e ts h h2
    rw [h] at h2
    cases h2
  exact ⟨hiff1, hiff2, h34, by decide⟩

/-- C10 counterexample: `https://h/a/x-00001-of-00002` is a valid URL with
exactly two path segments (author `a`, repo `x-00001-of-00002`), yet the
plan has two tasks, not one task with the URL unchanged: the repo
segment's stem matches the multi-part pattern. -/
theorem c10_counterexample :
    ((parse_huggingface_model_url "https://h/a/x-00001-of-00002".toList).toOption.map
        List.length = some 2) ∧
    ¬ ∃ t, parse_huggingface_model_url "https://h/a/x-00001-of-00002".toList = .ok [t] := by
  refine ⟨rfl, ?_⟩
  rintro ⟨t, h⟩
  have h1 : ((parse_huggingface_model_url "https://h/a/x-00001-of-00002".toList).toOption.map
      List.length) = some 2 := rfl
  rw [h] at h1
  simp [Except.toOption] at h1

/-- C10 corrected: a valid URL whose path has exactly two segments is never
a parse failure; and when additionally the path's basename is the repo
segment itself (no trailing slash, so the repo segment doubles as the
filename) and its stem does not match the multi-part pattern, the plan is
one task whose name is the repo segment's stem and whose download URL is
the input URL unchanged. (The unconditional one-task claim is refuted by
the counterexample, where the repo segment's stem matches the multi-part
pattern.) -/
theorem c10_two_segments (url : Str) (u : UrlParts)
    (hu : urlparseModel url = some u)
    (hs : u.scheme ≠ []) (hn : u.netloc ≠ [])
    (hseg : (pathSegments u).length = 2) :
    (∃ ts, parse_huggingface_model_url url = .ok ts) ∧
    (basename u.path = (pathSegments u).getD 1 [] →
      matchMultipart (fileStem u) = none →
      parse_huggingface_model_url url =
        .ok [{ DownloadUrl := url, Author := (pathSegments u).getD 0 [],
               ModelRepo := (pathSegments u).getD 1 [],
               ModelName := (splitext ((pathSegments u).getD 1 [])).1,
               Extension := (splitext ((pathSegments u).getD 1 [])).2 }]) := by
  have hseg2 : 2 ≤ (pathSegments u).length := by omega
  constructor
  · cases hm : matchMultipart (fileStem u) with
    | none => exact ⟨_, parse_ok_single url u hu hs hn hseg2 hm⟩
    | some bt =>
      obtain ⟨b, t⟩ := bt
      exact ⟨_, parse_ok_multipart url u b t hu hs hn hseg2 hm⟩
  · intro hb hm
    have h := parse_ok_single url u hu hs hn hseg2 hm
    rw [h]
    unfold fileStem fileExt
    rw [hb]

/-- C10 witness: `https://host/alice/modelX` (exactly two segments, repo
segment not multi-part) yields the single unchanged-URL task named
`modelX`. -/
theorem c10_two_segments_witness :
    parse_huggingface_model_url "https://host/alice/modelX".toList =
      .ok [{ DownloadUrl := "https://host/alice/modelX".toList,
             Author := "alice".toList, ModelRepo := "modelX".toList,
             ModelName := "modelX".toList, Extension := [] }] := by
  have h := c10_two_segments "https://host/alice/modelX".toList
    ⟨"https".toList, "host".toList, "/alice/modelX".toList⟩
    (by decide) (by decide) (by decide) (by decide)
  exact h.2 (by decide) (by decide)

end HFD

namespace HFD

/-! ## Lemmas about the orchestrator model -/

/-- Poll-loop effects are only logs and termination-related effects on the
task's own process. -/
theorem runPolls_shape (m : ModelInfo) (g : Bool) (polls : List (Str × Bool)) :
    ∀ e ∈ (runPolls m g polls).1,
      isLog e = true ∨ e = Eff.terminate m ∨ e = Eff.waitGrace m ∨ e = Eff.kill m := by
  induction polls with
  | nil =>
    intro e he
    simp [runPolls] at he
  | cons p rest ih =>
    obtain ⟨line, stopSet⟩ := p
    intro e he
    cases stopSet
    case false =>
      by_cases hl : line = [] <;> simp [runPolls, hl] at he
      · exact ih e he
      · rcases he with rfl | he
        · left; rfl
        · exact ih e he
    case true =>
      cases g <;> by_cases hl : line = [] <;> simp [runPolls, hl] at he <;>
        cases e <;> simp_all [isLog]

/-- The poll loop spawns no process. -/
theorem runPolls_spawnCount (m : ModelInfo) (g : Bool) (polls : List (Str × Bool)) :
    spawnCount (runPolls m g polls).1 = 0 := by
  unfold spawnCount
  rw [List.countP_eq_zero]
  intro e he
  rcases runPolls_shape m g polls e he with h | rfl | rfl | rfl
  · cases e <;> simp_all [isLog, isSpawn]
  all_goals simp [isSpawn]

/-- With the stop event never set, the loop runs to completion and only
forwards stdout lines. -/
theorem runPolls_quiet (m : ModelInfo) (g : Bool) (polls : List (Str × Bool))
    (h : ∀ p ∈ polls, p.2 = false) :
    (runPolls m g polls).2 = false ∧
    ∀ e ∈ (runPolls m g polls).1, ∃ l, e = Eff.log (.outLine l) := by
  induction polls with
  | nil =>
    refine ⟨rfl, ?_⟩
    intro e he
    simp [runPolls] at he
  | cons p rest ih =>
    obtain ⟨line, stopSet⟩ := p
    have hp : stopSet = false := h (line, stopSet) (by simp)
    subst hp
    obtain ⟨ih1, ih2⟩ := ih (fun q hq => h q (by simp [hq]))
    refine ⟨by simp [runPolls, ih1], ?_⟩
    intro e he
    by_cases hl : line = [] <;> simp [runPolls, hl] at he
    · exact ih2 e he
    · rcases he with rfl | he
      · exact ⟨stripWS line, rfl⟩
      · exact ih2 e he

/-- With the stop event set at some iteration's check, the loop breaks:
the process is asked to terminate, waited on, and killed exactly when the
5-second grace wait times out. -/
theorem runPolls_stop (m : ModelInfo) (g : Bool) (polls : List (Str × Bool))
    (h : ∃ p ∈ polls, p.2 = true) :
    (runPolls m g polls).2 = true ∧
    Eff.terminate m ∈ (runPolls m g polls).1 ∧
    Eff.waitGrace m ∈ (runPolls m g polls).1 ∧
    (Eff.kill m ∈ (runPolls m g polls).1 ↔ g = false) := by
  induction polls with
  | nil => simp at h
  | cons p rest ih =>
    obtain ⟨line, stopSet⟩ := p
    cases stopSet
    case true =>
      refine ⟨?_, ?_, ?_, ?_⟩ <;> cases g <;> by_cases hl : line = [] <;>
        simp [runPolls, hl]
    case false =>
      have h' : ∃ p ∈ rest, p.2 = true := by
        rcases h with ⟨q, hq, hq2⟩
        rcases List.mem_cons.mp hq with rfl | hq
        · cases hq2
        · exact ⟨q, hq, hq2⟩
      obtain ⟨i1, i2, i3, i4⟩ := ih h'
      refine ⟨?_, ?_, ?_, ?_⟩ <;> by_cases hl : line = [] <;>
        simp [runPolls, hl, i1, i2, i3, i4]

end HFD

namespace HFD

/-- Unfolding of the per-model loop at a cons cell. -/
theorem execTasks_cons (ap : Str) (se : Nat) (di : Str) (m : ModelInfo)
    (s : TaskScript) (rest : List (ModelInfo × TaskScript)) (stopIn : Bool) :
    execTasks ap se di ((m, s) :: rest) stopIn =
      if (execTask ap se di m s stopIn).broke then
        ((execTask ap se di m s stopIn).effs, (execTask ap se di m s stopIn).stopOut)
      else
        ((execTask ap se di m s stopIn).effs ++
          (execTasks ap se di rest (execTask ap se di m s stopIn).stopOut).1,
         (execTasks ap se di rest (execTask ap se di m s stopIn).stopOut).2) := rfl

/-- A task whose environment never raises the stop event runs to
completion: not broken, stop flag stays clear, and the effects are the
pre-loop setup, the forwarded lines, the success or error log, and the
handle release. -/
theorem execTask_quiet (ap : Str) (se : Nat) (di : Str) (m : ModelInfo)
    (s : TaskScript) (h : quietScript s) :
    execTask ap se di m s false =
      ⟨taskPre ap se di m ++ (runPolls m s.gracefulOk s.polls).1 ++
        (if s.exitCode = 0 then [Eff.log (.finished m.ModelName)]
         else [Eff.log (.ariaError m.ModelName (stripWS s.stderrText))]) ++
        [Eff.setProc false], false, false⟩ := by
  obtain ⟨h1, h2, h3⟩ := h
  have hq := (runPolls_quiet m s.gracefulOk s.polls h2).1
  unfold execTask
  rw [h1, hq, h3]
  simp

/-- A task that observes the stop event (in the poll loop or at the
post-loop re-check) breaks the outer loop, clears the stop flag, and
performs no handle release. -/
theorem execTask_cancel_observed (ap : Str) (se : Nat) (di : Str) (m : ModelInfo)
    (s : TaskScript) (hpre : s.stopAtPre = false)
    (hobs : (∃ p ∈ s.polls, p.2 = true) ∨ s.stopAtPost = true) :
    execTask ap se di m s false =
      ⟨taskPre ap se di m ++ (runPolls m s.gracefulOk s.polls).1 ++ [Eff.clearStop],
       false, true⟩ := by
  unfold execTask
  rw [hpre]
  rcases hobs with h | h
  · rw [(runPolls_stop m s.gracefulOk s.polls h).1]
    simp
  · rw [h]
    simp

/-- Any task that passes its pre-loop stop check spawns its process. -/
theorem execTask_spawn_mem (ap : Str) (se : Nat) (di : Str) (m : ModelInfo)
    (s : TaskScript) (hpre : s.stopAtPre = false) :
    Eff.spawn (ariaArgs ap se di m) ∈ (execTask ap se di m s false).effs := by
  unfold execTask
  rw [hpre]
  by_cases h : ((runPolls m s.gracefulOk s.polls).2 || s.stopAtPost) = true <;>
    simp [h, taskPre]

/-- A quiet task spawns exactly one process. -/
theorem execTask_quiet_spawnCount (ap : Str) (se : Nat) (di : Str) (m : ModelInfo)
    (s : TaskScript) (h : quietScript s) :
    spawnCount (execTask ap se di m s false).effs = 1 := by
  rw [execTask_quiet ap se di m s h]
  have hl := runPolls_spawnCount m s.gracefulOk s.polls
  unfold spawnCount at hl ⊢
  by_cases he : s.exitCode = 0 <;>
    simp [taskPre, List.countP_append, List.countP_cons, isSpawn, he, hl]

/-- A quiet task performs no termination-related effect. -/
theorem execTask_quiet_noTermLike (ap : Str) (se : Nat) (di : Str) (m : ModelInfo)
    (s : TaskScript) (h : quietScript s) :
    ∀ e ∈ (execTask ap se di m s false).effs, isTermLike e = false := by
  rw [execTask_quiet ap se di m s h]
  intro e he
  simp only [List.mem_append] at he
  rcases he with ((he | he) | he) | he
  · simp [taskPre] at he
    rcases he with rfl | rfl | rfl | rfl <;> rfl
  · obtain ⟨l, rfl⟩ := (runPolls_quiet m s.gracefulOk s.polls h.2.1).2 e he
    rfl
  · by_cases hx : s.exitCode = 0 <;> simp [hx] at he <;> subst he <;> rfl
  · simp at he
    subst he
    rfl

/-- Running a quiet prefix of tasks prepends its effects: each quiet task
contributes exactly one spawn and no termination-related effect, and the
loop continues with the stop flag still clear. -/
theorem execTasks_quiet_append (ap : Str) (se : Nat) (di : Str)
    (pre rest : List (ModelInfo × TaskScript))
    (h : ∀ x ∈ pre, quietScript x.2) :
    ∃ E, execTasks ap se di (pre ++ rest) false =
        (E ++ (execTasks ap se di rest false).1, (execTasks ap se di rest false).2) ∧
      spawnCount E = pre.length ∧
      (∀ e ∈ E, isTermLike e = false) := by
  induction pre with
  | nil => exact ⟨[], by simp, by simp [spawnCount], by simp⟩
  | cons x pre ih =>
    obtain ⟨m, s⟩ := x
    have hx : quietScript s := h (m, s) (by simp)
    obtain ⟨E, hE, hcount, hterm⟩ := ih (fun y hy => h y (by simp [hy]))
    refine ⟨(execTask ap se di m s false).effs ++ E, ?_, ?_, ?_⟩
    · show execTasks ap se di ((m, s) :: (pre ++ rest)) false = _
      simp [execTasks_cons, execTask_quiet ap se di m s hx, hE, List.append_assoc]
    · show spawnCount ((execTask ap se di m s false).effs ++ E) = ((m, s) :: pre).length
      have h1 := execTask_quiet_spawnCount ap se di m s hx
      unfold spawnCount at h1 hcount ⊢
      rw [List.countP_append, h1, hcount]
      simp [Nat.add_comm]
    · intro e he
      rcases List.mem_append.mp he with he | he
      · exact execTask_quiet_noTermLike ap se di m s hx e he
      · exact hterm e he

end HFD

namespace HFD

/-- When the three preconditions pass, a run is the per-model loop followed
by the final message and the transition back to idle. -/
theorem download_in_thread_run (ap : Str) (tasks : List (ModelInfo × TaskScript))
    (di : Str) (se : Nat) (st0 : Bool) (h1 : tasks ≠ []) (h2 : di ≠ []) :
    download_in_thread true ap tasks di se st0 =
      ((execTasks ap se di tasks st0).1 ++
        [Eff.log .finishedOrCancelled, Eff.setDownloading false],
       (execTasks ap se di tasks st0).2) := by
  unfold download_in_thread
  rw [if_neg (by simp), if_neg h1, if_neg h2]

/-- Any effect of a started task's step is an effect of the loop that
starts with that task. -/
theorem execTasks_cons_mem (ap : Str) (se : Nat) (di : Str) (m : ModelInfo)
    (s : TaskScript) (rest : List (ModelInfo × TaskScript)) (st : Bool) (e : Eff)
    (he : e ∈ (execTask ap se di m s st).effs) :
    e ∈ (execTasks ap se di ((m, s) :: rest) st).1 := by
  rw [execTasks_cons]
  by_cases h : (execTask ap se di m s st).broke = true <;> simp [h, he]

end HFD

namespace HFD

/-! ## Claim theorems: the download orchestrator -/

/-- C4: for a plan whose tasks before `(m, s)` run quietly, if the stop
event is observed set at some iteration of task `(m, s)`'s poll loop,
then that task's process receives `terminate()`, is waited on with the
5-second grace timeout, and is force-killed exactly when the wait times
out; no process is spawned for any later task (the trace holds exactly
one spawn per earlier task plus this task's); and the run ends with the
final message and the transition back to idle. -/
theorem c4_cancel_during_stream (ap : Str) (se : Nat) (di : Str)
    (pre rest : List (ModelInfo × TaskScript)) (m : ModelInfo) (s : TaskScript)
    (tr : List Eff)
    (htr : tr = (download_in_thread true ap (pre ++ (m, s) :: rest) di se false).1)
    (hq : ∀ x ∈ pre, quietScript x.2)
    (hpre : s.stopAtPre = false)
    (hobs : ∃ p ∈ s.polls, p.2 = true)
    (hdi : di ≠ []) :
    Eff.terminate m ∈ tr ∧ Eff.waitGrace m ∈ tr ∧
    (Eff.kill m ∈ tr ↔ s.gracefulOk = false) ∧
    spawnCount tr = pre.length + 1 ∧
    ∃ t0, tr = t0 ++ [Eff.log .finishedOrCancelled, Eff.setDownloading false] := by
  obtain ⟨E, hE, hcE, htE⟩ := execTasks_quiet_append ap se di pre ((m, s) :: rest) hq
  have hk := execTask_cancel_observed ap se di m s hpre (Or.inl hobs)
  have hrun := download_in_thread_run ap (pre ++ (m, s) :: rest) di se false (by simp) hdi
  have hcons : execTasks ap se di ((m, s) :: rest) false =
      (taskPre ap se di m ++ (runPolls m s.gracefulOk s.polls).1 ++ [Eff.clearStop],
       false) := by
    rw [execTasks_cons, hk]
    simp
  have htr2 : tr = E ++ (taskPre ap se di m ++ (runPolls m s.gracefulOk s.polls).1 ++
      [Eff.clearStop]) ++ [Eff.log .finishedOrCancelled, Eff.setDownloading false] := by
    rw [htr, hrun]
    dsimp only
    rw [hE]
    dsimp only
    rw [hcons]
  have hstop := runPolls_stop m s.gracefulOk s.polls hobs
  have hkE : Eff.kill m ∉ E := by
    intro hmem
    have := htE _ hmem
    simp [isTermLike] at this
  refine ⟨?_, ?_, ?_, ?_, ?_⟩
  · rw [htr2]
    simp [hstop.2.1]
  · rw [htr2]
    simp [hstop.2.2.1]
  · rw [htr2]
    simp [List.mem_append, hkE, taskPre, hstop.2.2.2]
  · have hP := runPolls_spawnCount m s.gracefulOk s.polls
    rw [htr2]
    unfold spawnCount at hcE hP ⊢
    simp [List.countP_append, List.countP_cons, isSpawn, taskPre, hcE, hP]
  · exact ⟨E ++ (taskPre ap se di m ++ (runPolls m s.gracefulOk s.polls).1 ++
      [Eff.clearStop]), by rw [htr2]⟩

/-- C4 witness: a one-task plan whose poll loop observes the stop event at
its first iteration, with the grace wait succeeding: the process is
terminated and waited on, not killed, one process total is spawned, and
the run ends with the final message and the idle transition. -/
theorem c4_cancel_during_stream_witness :
    Eff.terminate ⟨['u'], ['a'], ['r'], ['n'], []⟩ ∈
      (download_in_thread true [] [(⟨['u'], ['a'], ['r'], ['n'], []⟩,
        ⟨false, [([], true)], false, 0, [], true⟩)] ['d'] 2 false).1 ∧
    Eff.waitGrace ⟨['u'], ['a'], ['r'], ['n'], []⟩ ∈
      (download_in_thread true [] [(⟨['u'], ['a'], ['r'], ['n'], []⟩,
        ⟨false, [([], true)], false, 0, [], true⟩)] ['d'] 2 false).1 ∧
    (Eff.kill ⟨['u'], ['a'], ['r'], ['n'], []⟩ ∈
      (download_in_thread true [] [(⟨['u'], ['a'], ['r'], ['n'], []⟩,
        ⟨false, [([], true)], false, 0, [], true⟩)] ['d'] 2 false).1 ↔
      (⟨false, [([], true)], false, 0, [], true⟩ : TaskScript).gracefulOk = false) ∧
    spawnCount (download_in_thread true [] [(⟨['u'], ['a'], ['r'], ['n'], []⟩,
        ⟨false, [([], true)], false, 0, [], true⟩)] ['d'] 2 false).1 = 0 + 1 ∧
    ∃ t0, (download_in_thread true [] [(⟨['u'], ['a'], ['r'], ['n'], []⟩,
        ⟨false, [([], true)], false, 0, [], true⟩)] ['d'] 2 false).1 =
      t0 ++ [Eff.log .finishedOrCancelled, Eff.setDownloading false] := by
  have h := c4_cancel_during_stream [] 2 ['d'] [] []
    ⟨['u'], ['a'], ['r'], ['n'], []⟩ ⟨false, [([], true)], false, 0, [], true⟩
    _ rfl (by simp) (by decide) (by decide) (by decide)
  simpa using h

/-- C5: if the downloader binary is missing, or the plan is empty, or the
destination root is empty, the run performs exactly two effects — one
explanatory log message, selected by checking the three preconditions in
that order, and the transition back to idle — so no process is spawned
and exactly one message is emitted. -/
theorem c5_preconditions (ex : Bool) (ap : Str) (tasks : List (ModelInfo × TaskScript))
    (di : Str) (se : Nat) (st0 : Bool)
    (h : ex = false ∨ tasks = [] ∨ di = []) :
    (download_in_thread ex ap tasks di se st0).1 =
      [Eff.log (if ex = false then .notFound else if tasks = [] then .noModels
        else .noDest),
       Eff.setDownloading false] ∧
    (download_in_thread ex ap tasks di se st0).1.countP isLog = 1 ∧
    (∀ a, Eff.spawn a ∉ (download_in_thread ex ap tasks di se st0).1) := by
  have hmain : (download_in_thread ex ap tasks di se st0).1 =
      [Eff.log (if ex = false then .notFound else if tasks = [] then .noModels
        else .noDest),
       Eff.setDownloading false] := by
    by_cases hex : ex = false
    · simp [download_in_thread, hex]
    · rcases h with h | h | h
      · exact absurd h hex
      · simp [download_in_thread, hex, h]
      · by_cases ht : tasks = []
        · simp [download_in_thread, hex, ht]
        · simp [download_in_thread, hex, ht, h]
  refine ⟨hmain, ?_, ?_⟩
  · rw [hmain]
    simp [List.countP_cons, isLog]
  · intro a ha
    rw [hmain] at ha
    simp at ha

/-- C5 witness: with the binary missing (and a nonempty plan and
destination), the run is exactly the not-found message plus the idle
transition, with one log and no spawn. -/
theorem c5_preconditions_witness :
    (download_in_thread false [] [(⟨['u'], ['a'], ['r'], ['n'], []⟩,
        ⟨false, [], false, 0, [], true⟩)] ['d'] 2 false).1 =
      [Eff.log .notFound, Eff.setDownloading false] ∧
    (download_in_thread false [] [(⟨['u'], ['a'], ['r'], ['n'], []⟩,
        ⟨false, [], false, 0, [], true⟩)] ['d'] 2 false).1.countP isLog = 1 ∧
    (∀ a, Eff.spawn a ∉ (download_in_thread false [] [(⟨['u'], ['a'], ['r'], ['n'], []⟩,
        ⟨false, [], false, 0, [], true⟩)] ['d'] 2 false).1) := by
  have h := c5_preconditions false [] [(⟨['u'], ['a'], ['r'], ['n'], []⟩,
    ⟨false, [], false, 0, [], true⟩)] ['d'] 2 false (Or.inl rfl)
  simpa using h

end HFD

namespace HFD

/-- C6: when the tasks before `(m, s)` run quietly and task `(m, s)` itself
runs quietly (cancel signal never observed) but exits with a nonzero
code, the trace decomposes around that task's effects, which contain
exactly one error message embedding the task's name and the stripped
captured stderr text; and the next task `(m2, s2)` still spawns its
process afterwards — the nonzero exit does not abort the remaining
plan. -/
theorem c6_nonzero_exit_continues (ap : Str) (se : Nat) (di : Str)
    (pre : List (ModelInfo × TaskScript)) (m : ModelInfo) (s : TaskScript)
    (m2 : ModelInfo) (s2 : TaskScript) (rest : List (ModelInfo × TaskScript))
    (tr : List Eff)
    (htr : tr = (download_in_thread true ap
      (pre ++ (m, s) :: (m2, s2) :: rest) di se false).1)
    (hq : ∀ x ∈ pre, quietScript x.2)
    (hqs : quietScript s)
    (hexit : s.exitCode ≠ 0)
    (hs2 : s2.stopAtPre = false)
    (hdi : di ≠ []) :
    ∃ A B, tr = A ++ (execTask ap se di m s false).effs ++ B ∧
      (execTask ap se di m s false).effs.count
        (Eff.log (.ariaError m.ModelName (stripWS s.stderrText))) = 1 ∧
      Eff.spawn (ariaArgs ap se di m2) ∈ B := by
  obtain ⟨E, hE, -, -⟩ :=
    execTasks_quiet_append ap se di pre ((m, s) :: (m2, s2) :: rest) hq
  have hqk := execTask_quiet ap se di m s hqs
  have hrun := download_in_thread_run ap (pre ++ (m, s) :: (m2, s2) :: rest)
    di se false (by simp) hdi
  have hcons : (execTasks ap se di ((m, s) :: (m2, s2) :: rest) false).1 =
      (execTask ap se di m s false).effs ++
        (execTasks ap se di ((m2, s2) :: rest) false).1 := by
    rw [execTasks_cons, hqk]
    simp [hqk]
  refine ⟨E, (execTasks ap se di ((m2, s2) :: rest) false).1 ++
    [Eff.log .finishedOrCancelled, Eff.setDownloading false], ?_, ?_, ?_⟩
  · rw [htr, hrun]
    dsimp only
    rw [hE]
    dsimp only
    rw [hcons]
    simp [List.append_assoc]
  · rw [hqk]
    dsimp only
    rw [if_neg hexit]
    have hq2 := (runPolls_quiet m s.gracefulOk s.polls hqs.2.1).2
    have h0 : (taskPre ap se di m).count
        (Eff.log (.ariaError m.ModelName (stripWS s.stderrText))) = 0 := by
      simp [taskPre, List.count_cons]
    have h1 : ((runPolls m s.gracefulOk s.polls).1).count
        (Eff.log (.ariaError m.ModelName (stripWS s.stderrText))) = 0 := by
      rw [List.count_eq_zero]
      intro hmem
      obtain ⟨l, hl⟩ := hq2 _ hmem
      simp at hl
    simp [List.count_append, h0, h1, List.count_cons]
  · apply List.mem_append_left
    exact execTasks_cons_mem ap se di m2 s2 rest false _
      (execTask_spawn_mem ap se di m2 s2 hs2)

/-- C6 witness: a two-task plan whose first task exits with code 1 and
stderr `"e"`: the trace decomposes around the first task's effects with
exactly one error message, and the second task's spawn follows. -/
theorem c6_nonzero_exit_continues_witness :
    ∃ A B, (download_in_thread true []
        [(⟨['u'], ['a'], ['r'], ['n'], []⟩, ⟨false, [], false, 1, ['e'], true⟩),
         (⟨['v'], ['a'], ['r'], ['p'], []⟩, ⟨false, [], false, 0, [], true⟩)]
        ['d'] 2 false).1 =
      A ++ (execTask [] 2 ['d'] ⟨['u'], ['a'], ['r'], ['n'], []⟩
        ⟨false, [], false, 1, ['e'], true⟩ false).effs ++ B ∧
      (execTask [] 2 ['d'] ⟨['u'], ['a'], ['r'], ['n'], []⟩
        ⟨false, [], false, 1, ['e'], true⟩ false).effs.count
        (Eff.log (.ariaError ['n'] ['e'])) = 1 ∧
      Eff.spawn (ariaArgs [] 2 ['d'] ⟨['v'], ['a'], ['r'], ['p'], []⟩) ∈ B := by
  have h := c6_nonzero_exit_continues [] 2 ['d'] []
    ⟨['u'], ['a'], ['r'], ['n'], []⟩ ⟨false, [], false, 1, ['e'], true⟩
    ⟨['v'], ['a'], ['r'], ['p'], []⟩ ⟨false, [], false, 0, [], true⟩ []
    _ rfl (by simp) ⟨rfl, by simp, rfl⟩ (by decide) (by decide) (by decide)
  exact h

/-- C7 counterexample: a run that observes the cancel signal at the
pre-task check (so it logs the cancellation message) ends with the stop
flag still set and never clears it — the flag leaks out of the run that
observed it. -/
theorem c7_counterexample :
    Eff.log (.cancelled ['n']) ∈
      (download_in_thread true [] [(⟨['u'], ['a'], ['r'], ['n'], []⟩,
        ⟨true, [], false, 0, [], true⟩)] ['d'] 2 false).1 ∧
    (download_in_thread true [] [(⟨['u'], ['a'], ['r'], ['n'], []⟩,
        ⟨true, [], false, 0, [], true⟩)] ['d'] 2 false).2 = true ∧
    Eff.clearStop ∉
      (download_in_thread true [] [(⟨['u'], ['a'], ['r'], ['n'], []⟩,
        ⟨true, [], false, 0, [], true⟩)] ['d'] 2 false).1 := by
  decide

/-- C7 corrected: when the cancel signal is observed during a task's poll
loop (or at its post-loop re-check, line 222), the run clears it before
ending, so the final flag value is clear; but when the signal is observed
only at a pre-task check (line 176), the run ends with the flag still set
(the counterexample) — the initiator clears it at the start of the next
run instead. -/
theorem c7_clear_on_loop_observe (ap : Str) (se : Nat) (di : Str)
    (pre rest : List (ModelInfo × TaskScript)) (m : ModelInfo) (s : TaskScript)
    (hq : ∀ x ∈ pre, quietScript x.2)
    (hpre : s.stopAtPre = false)
    (hobs : (∃ p ∈ s.polls, p.2 = true) ∨ s.stopAtPost = true)
    (hdi : di ≠ []) :
    (download_in_thread true ap (pre ++ (m, s) :: rest) di se false).2 = false ∧
    Eff.clearStop ∈ (download_in_thread true ap (pre ++ (m, s) :: rest) di se false).1 := by
  obtain ⟨E, hE, -, -⟩ := execTasks_quiet_append ap se di pre ((m, s) :: rest) hq
  have hk := execTask_cancel_observed ap se di m s hpre hobs
  have hrun := download_in_thread_run ap (pre ++ (m, s) :: rest) di se false (by simp) hdi
  have hcons : execTasks ap se di ((m, s) :: rest) false =
      (taskPre ap se di m ++ (runPolls m s.gracefulOk s.polls).1 ++ [Eff.clearStop],
       false) := by
    rw [execTasks_cons, hk]
    simp
  constructor
  · rw [hrun]
    dsimp only
    rw [hE]
    dsimp only
    rw [hcons]
  · rw [hrun]
    dsimp only
    rw [hE]
    dsimp only
    rw [hcons]
    simp

/-- C7 witness: the corrected clearing property applied to a one-task run
whose poll loop observes the stop event: the run ends with the flag
cleared and the trace contains the clear. -/
theorem c7_clear_on_loop_observe_witness :
    (download_in_thread true [] [(⟨['u'], ['a'], ['r'], ['n'], []⟩,
        ⟨false, [([], true)], false, 0, [], true⟩)] ['d'] 2 false).2 = false ∧
    Eff.clearStop ∈ (download_in_thread true [] [(⟨['u'], ['a'], ['r'], ['n'], []⟩,
        ⟨false, [([], true)], false, 0, [], true⟩)] ['d'] 2 false).1 := by
  have h := c7_clear_on_loop_observe [] 2 ['d'] [] []
    ⟨['u'], ['a'], ['r'], ['n'], []⟩ ⟨false, [([], true)], false, 0, [], true⟩
    (by simp) (by decide) (Or.inl (by decide)) (by decide)
  simpa using h

/-- C8: a run cancelled during a task's poll loop records the process
handle (`set_process(process)`, line 205) and terminates the process, but
the `break` on line 224 skips `set_process(None)` on line 236, so the
handle is never released on the cancellation path — contradicting the
source's own line-236 comment ("Clear process after download ends or is
stopped") and the spec's "released regardless of outcome". -/
theorem c8_handle_not_released :
    Eff.setProc true ∈
      (download_in_thread true [] [(⟨['u'], ['a'], ['r'], ['n'], []⟩,
        ⟨false, [([], true)], false, 0, [], true⟩)] ['d'] 2 false).1 ∧
    Eff.terminate ⟨['u'], ['a'], ['r'], ['n'], []⟩ ∈
      (download_in_thread true [] [(⟨['u'], ['a'], ['r'], ['n'], []⟩,
        ⟨false, [([], true)], false, 0, [], true⟩)] ['d'] 2 false).1 ∧
    Eff.setProc false ∉
      (download_in_thread true [] [(⟨['u'], ['a'], ['r'], ['n'], []⟩,
        ⟨false, [([], true)], false, 0, [], true⟩)] ['d'] 2 false).1 := by
  decide

end HFD
